import Mathlib

/-!
Verification of the green-screen chroma-key pipeline (`src/main.rs`).

The development shallowly embeds the program's data model and operations:
pixels (`Color`), the chroma-key classifier (`FilterType.should_cut_off`),
background substitution (`apply_to`), the byte codec (`to_colors`,
`to_buffer`), the wire payload builder (`build_tcp_payload`), and the
connection registry (`State`, `process_payload`, `insert_stream`).
Machine integers (`u8`, `u32`, `usize`) are modelled as `Nat`; none of the
arithmetic in the program can overflow at these widths. Rust panics are
modelled as `none` in an `Option`-valued result.
-/

/-- Canonical pixel of `struct Color`: four unsigned byte channels in
(R, G, B, A) field order, each a `Nat` standing for a `u8`. -/
structure Color where
  r : Nat
  g : Nat
  b : Nat
  a : Nat
  deriving DecidableEq, Repr

/-- The chroma-key filter kind of `enum FilterType`: which channel is
the key channel. -/
inductive FilterType where
  | Red
  | Blue
  | Green
  deriving DecidableEq, Repr

/-- Embedding of `FilterType::should_cut_off`: the key channel must lie in
the Rust half-open range `150..255` and the accumulated absolute deviation
of the two other channels from the constants 20/20 must be below 120.
`u32::abs_diff` on byte-sized values is `Nat.dist`. -/
def should_cut_off (ft : FilterType) (color : Color) : Bool :=
  let cut_off_1 : Nat := 20
  let cut_off_2 : Nat := 20
  let cut_off_variance : Nat := 120
  let tc : Nat × Nat :=
    match ft with
    | FilterType.Red => (color.r, Nat.dist color.g cut_off_1 + Nat.dist color.b cut_off_2)
    | FilterType.Blue => (color.b, Nat.dist color.g cut_off_1 + Nat.dist color.r cut_off_2)
    | FilterType.Green => (color.g, Nat.dist color.b cut_off_1 + Nat.dist color.r cut_off_2)
  decide ((150 ≤ tc.1 ∧ tc.1 < 255) ∧ tc.2 < cut_off_variance)

/-- Spec-side reading: the key channel of a pixel for each filter kind
(R for RedKey, B for BlueKey, G for GreenKey). -/
def keyChannel : FilterType → Color → Nat
  | FilterType.Red, c => c.r
  | FilterType.Blue, c => c.b
  | FilterType.Green, c => c.g

/-- Spec-side reading: the kind's two reference channels
(RedKey: G,B; BlueKey: G,R; GreenKey: B,R). -/
def referenceChannels : FilterType → Color → Nat × Nat
  | FilterType.Red, c => (c.g, c.b)
  | FilterType.Blue, c => (c.g, c.r)
  | FilterType.Green, c => (c.b, c.r)

/-- Spec-side reading: `variance = |ref0 - 20| + |ref1 - 20|` as unsigned
distance over the kind's two reference channels. -/
def specVariance (ft : FilterType) (c : Color) : Nat :=
  Nat.dist (referenceChannels ft c).1 20 + Nat.dist (referenceChannels ft c).2 20

/-- C1: for every pixel and every filter kind, `should_cut_off` returns
true iff the kind's key channel lies in the half-open range [150, 255) and
the variance |ref0 - 20| + |ref1 - 20| over the kind's two reference
channels is strictly less than 120; in particular a pixel whose key channel
equals 255 is classified false. -/
theorem C1_classify_iff (ft : FilterType) (c : Color) :
    (should_cut_off ft c = true ↔
      (150 ≤ keyChannel ft c ∧ keyChannel ft c < 255 ∧ specVariance ft c < 120)) ∧
    (keyChannel ft c = 255 → should_cut_off ft c = false) := by
  cases ft <;> cases c <;>
    simp [should_cut_off, keyChannel, referenceChannels, specVariance] <;>
    omega

/-- Witness for C1 at a concrete pixel whose key channel is 255. -/
theorem C1_classify_iff_witness :
    should_cut_off FilterType.Red (Color.mk 255 20 20 0) = false :=
  (C1_classify_iff FilterType.Red (Color.mk 255 20 20 0)).2 rfl

/-- C10: for every filter kind, two pixels that agree on the R, G and B
channels and differ only in alpha are classified identically: the
substitution decision never depends on the alpha channel. -/
theorem C10_classify_ignores_alpha (ft : FilterType) (c1 c2 : Color)
    (hr : c1.r = c2.r) (hg : c1.g = c2.g) (hb : c1.b = c2.b) :
    should_cut_off ft c1 = should_cut_off ft c2 := by
  cases c1; cases c2; cases ft <;> simp_all [should_cut_off]

/-- Witness for C10: two concrete pixels differing only in alpha. -/
theorem C10_classify_ignores_alpha_witness :
    should_cut_off FilterType.Red (Color.mk 200 15 25 255) =
      should_cut_off FilterType.Red (Color.mk 200 15 25 0) :=
  C10_classify_ignores_alpha FilterType.Red (Color.mk 200 15 25 255)
    (Color.mk 200 15 25 0) rfl rfl rfl

/-- Embedding of `From<(&u8, &u8, &u8, &u8)> for Color`: a 4-byte wire
window read in (B, G, R, A) order, mapped to the canonical pixel. -/
def window_to_color (b g r a : Nat) : Color := Color.mk r g b a

/-- Embedding of `BufferToColor::to_colors`: itertools `tuples` groups the
byte stream into consecutive 4-byte windows, mapping each through
`window_to_color` and silently dropping any remainder shorter than 4. -/
def to_colors : List Nat → List Color
  | b :: g :: r :: a :: rest => window_to_color b g r a :: to_colors rest
  | _ => []

/-- Embedding of `From<Color> for [u8; 4]`: a pixel emits its bytes in
(R, G, B, A) order. -/
def color_to_bytes (c : Color) : List Nat :=
  [c.r, c.g, c.b, c.a]

/-- Embedding of `ColorsToBuffer::to_buffer`: concatenation of the
per-pixel byte groups. -/
def to_buffer : List Color → List Nat
  | [] => []
  | c :: cs => color_to_bytes c ++ to_buffer cs

/-- Spec-side reading for C4: swap the first and third byte of every
consecutive 4-byte group, leaving the other two bytes in place. -/
def swapFirstThird : List Nat → List Nat
  | b :: g :: r :: a :: rest => r :: g :: b :: a :: swapFirstThird rest
  | l => l

/-- Round trip on a buffer of length `4 * n` swaps the first and third
byte of every 4-byte group. -/
theorem to_buffer_to_colors_eq_swap (n : Nat) :
    ∀ raw : List Nat, raw.length = 4 * n →
      to_buffer (to_colors raw) = swapFirstThird raw := by
  induction n with
  | zero =>
    intro raw h
    rcases raw with _ | ⟨b, raw⟩
    · rfl
    · simp at h
  | succ n ih =>
    intro raw h
    rcases raw with _ | ⟨b, _ | ⟨g, _ | ⟨r, _ | ⟨a, rest⟩⟩⟩⟩ <;>
      simp only [List.length_nil, List.length_cons] at h
    · exact absurd h (by omega)
    · exact absurd h (by omega)
    · exact absurd h (by omega)
    · exact absurd h (by omega)
    · simp only [to_colors, window_to_color, to_buffer, color_to_bytes, swapFirstThird]
      simp [ih rest (by omega)]

/-- C4: for every raw byte sequence whose length is a multiple of 4,
`encode(decode(raw))` swaps the first and third byte of every consecutive
4-byte group and leaves the other two bytes in place; in particular
`decode([1,2,3,4])` yields the single pixel (R=3, G=2, B=1, A=4) and
encoding that pixel yields `[3,2,1,4]`. -/
theorem C4_roundtrip_swap (raw : List Nat) (h : raw.length % 4 = 0) :
    to_buffer (to_colors raw) = swapFirstThird raw ∧
    to_colors [1, 2, 3, 4] = [Color.mk 3 2 1 4] ∧
    to_buffer [Color.mk 3 2 1 4] = [3, 2, 1, 4] :=
  ⟨to_buffer_to_colors_eq_swap (raw.length / 4) raw (by omega), rfl, rfl⟩

/-- Witness for C4 on a concrete 8-byte buffer. -/
theorem C4_roundtrip_swap_witness :
    to_buffer (to_colors [1, 2, 3, 4, 5, 6, 7, 8]) = [3, 2, 1, 4, 7, 6, 5, 8] :=
  (C4_roundtrip_swap [1, 2, 3, 4, 5, 6, 7, 8] (by decide)).1.trans (by decide)

/-- Number of decoded pixels is the number of complete 4-byte windows. -/
theorem to_colors_length : ∀ raw : List Nat, (to_colors raw).length = raw.length / 4
  | [] => by simp [to_colors]
  | [b] => by simp [to_colors]
  | [b, g] => by simp [to_colors]
  | [b, g, r] => by simp [to_colors]
  | b :: g :: r :: a :: rest => by
    simp only [to_colors, List.length_cons, to_colors_length rest]
    omega

/-- Each decoded pixel reads its 4-byte window as (B, G, R, A) on the wire. -/
theorem to_colors_getElem? :
    ∀ (raw : List Nat) (i b g r a : Nat),
      raw[4 * i]? = some b → raw[4 * i + 1]? = some g →
      raw[4 * i + 2]? = some r → raw[4 * i + 3]? = some a →
      (to_colors raw)[i]? = some (Color.mk r g b a)
  | [], i, b, g, r, a, hb, hg, hr, ha => by simp at hb
  | [x], i, b, g, r, a, hb, hg, hr, ha => by
    rcases i with _ | i <;> simp at hb hg
  | [x, y], i, b, g, r, a, hb, hg, hr, ha => by
    rcases i with _ | i <;> simp at hb hg hr
  | [x, y, z], i, b, g, r, a, hb, hg, hr, ha => by
    rcases i with _ | i <;> simp at hb hg hr ha
  | x :: y :: z :: w :: rest, i, b, g, r, a, hb, hg, hr, ha => by
    rcases i with _ | i
    · simp at hb hg hr ha
      subst hb; subst hg; subst hr; subst ha
      simp [to_colors, window_to_color]
    · rw [show 4 * (i + 1) = 4 * i + 1 + 1 + 1 + 1 by omega] at hb
      rw [show 4 * (i + 1) + 1 = 4 * i + 1 + 1 + 1 + 1 + 1 by omega] at hg
      rw [show 4 * (i + 1) + 2 = 4 * i + 2 + 1 + 1 + 1 + 1 by omega] at hr
      rw [show 4 * (i + 1) + 3 = 4 * i + 3 + 1 + 1 + 1 + 1 by omega] at ha
      simp only [List.getElem?_cons_succ] at hb hg hr ha
      simpa [to_colors] using to_colors_getElem? rest i b g r a hb hg hr ha

/-- C5: decode produces exactly floor(n/4) pixels by grouping consecutive
4-byte windows, mapping each window read as (B, G, R, A) on the wire to the
canonical pixel (R=window[2], G=window[1], B=window[0], A=window[3]);
remainder bytes are dropped silently. -/
theorem C5_decode_grouping (raw : List Nat) :
    (to_colors raw).length = raw.length / 4 ∧
    ∀ i b g r a : Nat,
      raw[4 * i]? = some b → raw[4 * i + 1]? = some g →
      raw[4 * i + 2]? = some r → raw[4 * i + 3]? = some a →
      (to_colors raw)[i]? = some (Color.mk r g b a) :=
  ⟨to_colors_length raw, fun i b g r a hb hg hr ha =>
    to_colors_getElem? raw i b g r a hb hg hr ha⟩

/-- Witness for C5 on a 9-byte buffer: two pixels, second window
(5,4,3,2) decodes to (R=3,G=4,B=5,A=2), the ninth byte is dropped. -/
theorem C5_decode_grouping_witness :
    (to_colors [9, 8, 7, 6, 5, 4, 3, 2, 1]).length = 2 ∧
    (to_colors [9, 8, 7, 6, 5, 4, 3, 2, 1])[1]? = some (Color.mk 3 4 5 2) :=
  ⟨((C5_decode_grouping [9, 8, 7, 6, 5, 4, 3, 2, 1]).1).trans (by decide),
    (C5_decode_grouping [9, 8, 7, 6, 5, 4, 3, 2, 1]).2 1 5 4 3 2 rfl rfl rfl rfl⟩

/-- Embedding of the body of `FilterType::apply_to`: the enumerated map
over the current frame, indexing the background frame at the running index
when the pixel classifies as key. `none` models the index-out-of-bounds
panic of `back_ground_frame[index]`. -/
def apply_to_aux (ft : FilterType) (bg : List Color) : Nat → List Color → Option (List Color)
  | _, [] => some []
  | i, c :: cs =>
    match (if should_cut_off ft c then bg[i]? else some c), apply_to_aux ft bg (i + 1) cs with
    | some x, some xs => some (x :: xs)
    | _, _ => none

/-- Embedding of `FilterType::apply_to`, starting the enumeration at 0. -/
def apply_to (ft : FilterType) (bg cur : List Color) : Option (List Color) :=
  apply_to_aux ft bg 0 cur

/-- Auxiliary characterization: when every index of the current slice fits
inside the background, the enumerated map succeeds and substitutes
pointwise. -/
theorem apply_to_aux_spec (ft : FilterType) (bg : List Color) :
    ∀ (cur : List Color) (i : Nat), i + cur.length ≤ bg.length →
      ∃ out, apply_to_aux ft bg i cur = some out ∧ out.length = cur.length ∧
        ∀ (j : Nat) (c : Color), cur[j]? = some c →
          out[j]? = if should_cut_off ft c then bg[i + j]? else some c
  | [], i, h => ⟨[], rfl, rfl, fun j c hc => by simp at hc⟩
  | c :: cs, i, h => by
    have hi : i < bg.length := by
      simp only [List.length_cons] at h
      omega
    obtain ⟨out, hout, hlen, hpt⟩ := apply_to_aux_spec ft bg cs (i + 1) (by
      simp only [List.length_cons] at h
      omega)
    have hbg : bg[i]? = some (bg.get ⟨i, hi⟩) := by
      simp [List.getElem?_eq_getElem hi]
    refine ⟨(if should_cut_off ft c then bg.get ⟨i, hi⟩ else c) :: out, ?_, by simp [hlen], ?_⟩
    · simp only [apply_to_aux, hout, hbg]
      by_cases hc : should_cut_off ft c <;> simp [hc]
    · intro j d hd
      rcases j with _ | j
      · simp only [List.getElem?_cons_zero, Option.some.injEq] at hd
        subst hd
        by_cases hc : should_cut_off ft c <;> simp [hc, hbg]
      · simp only [List.getElem?_cons_succ] at hd ⊢
        rw [hpt j d hd, show i + (j + 1) = i + 1 + j by omega]

/-- C3: for background and current sequences of equal length, apply
returns a same-length sequence whose element at each index is the
background pixel where the current pixel classifies as key, and the
current pixel unchanged otherwise. -/
theorem C3_apply_substitution (ft : FilterType) (bg cur : List Color)
    (h : bg.length = cur.length) :
    ∃ out, apply_to ft bg cur = some out ∧ out.length = cur.length ∧
      ∀ (j : Nat) (c b : Color), cur[j]? = some c → bg[j]? = some b →
        out[j]? = some (if should_cut_off ft c then b else c) := by
  obtain ⟨out, hout, hlen, hpt⟩ := apply_to_aux_spec ft bg cur 0 (by omega)
  refine ⟨out, hout, hlen, fun j c b hc hb => ?_⟩
  rw [hpt j c hc]
  by_cases hcut : should_cut_off ft c <;> simp [hcut, hb]

/-- Witness for C3 on the end-to-end scenario: a black background, one key
pixel substituted, one out-of-range pixel passed through. -/
theorem C3_apply_substitution_witness :
    ([Color.mk 0 0 0 255, Color.mk 0 0 0 255] : List Color).length =
      ([Color.mk 200 15 25 255, Color.mk 10 0 0 255] : List Color).length ∧
    ∃ out, apply_to FilterType.Red [Color.mk 0 0 0 255, Color.mk 0 0 0 255]
        [Color.mk 200 15 25 255, Color.mk 10 0 0 255] = some out ∧
      out.length = ([Color.mk 200 15 25 255, Color.mk 10 0 0 255] : List Color).length ∧
      ∀ (j : Nat) (c b : Color),
        ([Color.mk 200 15 25 255, Color.mk 10 0 0 255] : List Color)[j]? = some c →
        ([Color.mk 0 0 0 255, Color.mk 0 0 0 255] : List Color)[j]? = some b →
        out[j]? = some (if should_cut_off FilterType.Red c then b else c) :=
  ⟨rfl, C3_apply_substitution FilterType.Red
    [Color.mk 0 0 0 255, Color.mk 0 0 0 255]
    [Color.mk 200 15 25 255, Color.mk 10 0 0 255] rfl⟩

/-- Counterexample to C8 as stated: a background strictly longer than the
current frame is a geometry mismatch, yet `apply_to` returns output
(the empty frame) rather than aborting. -/
theorem C8_mismatch_no_abort_counterexample :
    ([Color.mk 0 0 0 255] : List Color).length ≠ ([] : List Color).length ∧
    apply_to FilterType.Red [Color.mk 0 0 0 255] [] = some [] :=
  ⟨by decide, rfl⟩

/-- An enumerated-map step on a cons cell fails iff its head lookup fails
or the tail fails. -/
theorem apply_to_aux_cons_none (ft : FilterType) (bg : List Color)
    (i : Nat) (c : Color) (cs : List Color) :
    (apply_to_aux ft bg i (c :: cs) = none ↔
      ((if should_cut_off ft c then bg[i]? else some c) = none ∨
        apply_to_aux ft bg (i + 1) cs = none)) := by
  cases hA : (if should_cut_off ft c then bg[i]? else some c) <;>
    cases hB : apply_to_aux ft bg (i + 1) cs <;>
      simp [apply_to_aux, hA, hB]

/-- The enumerated map panics exactly when some classified-true pixel sits
at an index whose background slot does not exist. -/
theorem apply_to_aux_none_iff (ft : FilterType) (bg : List Color) :
    ∀ (cur : List Color) (i : Nat),
      (apply_to_aux ft bg i cur = none ↔
        ∃ j c, cur[j]? = some c ∧ should_cut_off ft c = true ∧ bg.length ≤ i + j)
  | [], i => by simp [apply_to_aux]
  | c :: cs, i => by
    rw [apply_to_aux_cons_none, apply_to_aux_none_iff ft bg cs (i + 1)]
    constructor
    · rintro (hfail | ⟨j, d, hd, hcut, hle⟩)
      · by_cases hc : should_cut_off ft c
        · simp only [hc, if_true] at hfail
          exact ⟨0, c, by simp, hc, by
            have := List.getElem?_eq_none_iff.mp hfail
            omega⟩
        · simp [hc] at hfail
      · exact ⟨j + 1, d, by simpa using hd, hcut, by omega⟩
    · rintro ⟨j, d, hd, hcut, hle⟩
      rcases j with _ | j
      · left
        simp only [List.getElem?_cons_zero, Option.some.injEq] at hd
        subst hd
        simp only [hcut, if_true]
        exact List.getElem?_eq_none (by omega)
      · right
        exact ⟨j, d, by simpa using hd, hcut, by omega⟩

/-- C8 amended: `apply_to` aborts (models the `back_ground_frame[index]`
panic) iff some pixel of the current frame classifies as key at an index
outside the background frame; a geometry mismatch alone does not abort. -/
theorem C8_amended_abort_iff (ft : FilterType) (bg cur : List Color) :
    apply_to ft bg cur = none ↔
      ∃ i c, cur[i]? = some c ∧ should_cut_off ft c = true ∧ bg.length ≤ i := by
  rw [apply_to, apply_to_aux_none_iff]
  simp

/-- Model of an open `TcpStream` output sink: whether `writeln!` and
`flush` succeed on it, and the text delivered to the peer so far. -/
structure TcpStream where
  writeOk : Bool
  flushOk : Bool
  received : List String
  deriving DecidableEq, Repr

/-- Model of `writeln!(stream, "{}", payload)`: on success the payload
followed by a line terminator is delivered; on failure nothing is
delivered and the error is reported. -/
def stream_writeln (s : TcpStream) (payload : String) : TcpStream × Bool :=
  if s.writeOk then
    ({ s with received := s.received ++ [payload ++ "\n"] }, true)
  else
    (s, false)

/-- Model of `stream.flush()`: reports success or failure without
changing the delivered text. -/
def stream_flush (s : TcpStream) : TcpStream × Bool :=
  (s, s.flushOk)

/-- Embedding of `struct State`: the active filter, the connection
counter, and the registry. The `HashMap<usize, TcpStream>` is modelled as
an association list keyed by identifier. -/
structure State where
  filter : FilterType
  con_count : Nat
  streams : List (Nat × TcpStream)

/-- Embedding of `State::default()`: `FilterType::Red`, counter 0, empty
registry. -/
def State.initial : State :=
  { filter := FilterType.Red, con_count := 0, streams := [] }

/-- Embedding of `HashMap::remove_entry` on the association list. -/
def removeKey (l : List (Nat × TcpStream)) (k : Nat) : List (Nat × TcpStream) :=
  l.filter (fun e => e.1 ≠ k)

/-- Per-entry body of the broadcast pass in `State::process_payload`: the
`iter_mut().filter_map(..)` closure writes the payload and a line
terminator, flushes, and yields the entry's key iff either step failed. -/
def broadcast_step (payload : String) (e : Nat × TcpStream) :
    (Nat × TcpStream) × Option Nat :=
  let w := stream_writeln e.2 payload
  let r := stream_flush w.1
  ((e.1, r.1), if !r.2 || !w.2 then some e.1 else none)

/-- Embedding of `State::process_payload`: one full pass over all entries
(collecting failed keys into a `Vec`), then removal of every collected
key — the collect-then-prune discipline of the source. -/
def State.process_payload (st : State) (payload : String) : State :=
  let pass := st.streams.map (broadcast_step payload)
  let failed := pass.filterMap Prod.snd
  { st with streams := failed.foldl removeKey (pass.map Prod.fst) }

/-- Embedding of `HashMap::insert` on the association list: replaces any
entry already present at the key. -/
def mapInsert (l : List (Nat × TcpStream)) (k : Nat) (v : TcpStream) :
    List (Nat × TcpStream) :=
  removeKey l k ++ [(k, v)]

/-- Embedding of `State::insert_stream`: increment the counter and insert
the stream under the new counter value. -/
def State.insert_stream (st : State) (stream : TcpStream) : State :=
  { st with
      con_count := st.con_count + 1,
      streams := mapInsert st.streams (st.con_count + 1) stream }

/-- Effect of a successful broadcast pass on one sink: the payload plus a
line terminator is appended to its delivered text. -/
def deliver (payload : String) (s : TcpStream) : TcpStream :=
  { s with received := s.received ++ [payload ++ "\n"] }

/-- A sink whose write and flush both succeed is updated by `deliver` and
yields no failed key. -/
theorem broadcast_step_ok (payload : String) (e : Nat × TcpStream)
    (hw : e.2.writeOk = true) (hf : e.2.flushOk = true) :
    broadcast_step payload e = ((e.1, deliver payload e.2), none) := by
  rcases e with ⟨k0, s0⟩
  simp only at hw hf
  simp [broadcast_step, stream_writeln, stream_flush, deliver, hw, hf]

/-- A sink whose write or flush fails yields its key as failed. -/
theorem broadcast_step_fail (payload : String) (e : Nat × TcpStream)
    (hfail : e.2.writeOk = false ∨ e.2.flushOk = false) :
    (broadcast_step payload e).2 = some e.1 := by
  rcases e with ⟨k0, wOk, fOk, rec⟩
  rcases hfail with h | h
  · simp only at h
    subst h
    simp [broadcast_step, stream_writeln, stream_flush]
  · simp only at h
    subst h
    cases wOk <;> simp [broadcast_step, stream_writeln, stream_flush]

/-- The broadcast pass never renames an entry. -/
theorem broadcast_step_fst_key (payload : String) (e : Nat × TcpStream) :
    (broadcast_step payload e).1.1 = e.1 := by
  rcases e with ⟨k0, s0⟩
  simp [broadcast_step, stream_writeln, stream_flush]

/-- Collected keys of an all-successful slice of the pass are empty. -/
theorem filterMap_snd_pass_ok (p : String) (l : List (Nat × TcpStream)) :
    ((l.map (fun e => ((e.1, deliver p e.2), (none : Option Nat)))).filterMap
      Prod.snd) = [] := by
  induction l with
  | nil => rfl
  | cons e l ih => simp [ih]

/-- Removing an absent key leaves the association list unchanged. -/
theorem removeKey_of_not_mem (l : List (Nat × TcpStream)) (k : Nat)
    (h : k ∉ l.map Prod.fst) : removeKey l k = l := by
  induction l with
  | nil => rfl
  | cons e l ih =>
    simp only [List.map_cons, List.mem_cons] at h
    push_neg at h
    have hne : e.1 ≠ k := fun hh => h.1 hh.symm
    have ih2 := ih h.2
    simp only [removeKey, List.filter_cons] at ih2 ⊢
    simp [hne, ih2]
    intro a b hab hak
    subst hak
    exact h.2 (List.mem_map.mpr ⟨(a, b), hab, rfl⟩)

/-- Removal distributes over appended registries. -/
theorem removeKey_append (a b : List (Nat × TcpStream)) (k : Nat) :
    removeKey (a ++ b) k = removeKey a k ++ removeKey b k := by
  simp [removeKey, List.filter_append]

/-- Removal drops a head entry carrying the removed key. -/
theorem removeKey_cons_of_eq (x : Nat × TcpStream) (l : List (Nat × TcpStream))
    (k : Nat) (h : x.1 = k) : removeKey (x :: l) k = removeKey l k := by
  simp [removeKey, List.filter_cons, h]

/-- C2: broadcasting to a registry in which exactly one sink fails writes
the payload followed by a line terminator and flushes once per registered
sink, and the prune performed after the full pass removes exactly the
failing entry: every other sink stays registered having received the
payload exactly once. -/
theorem C2_broadcast_collect_then_prune (st : State) (payload : String)
    (pre post : List (Nat × TcpStream)) (k : Nat) (s : TcpStream)
    (hsplit : st.streams = pre ++ (k, s) :: post)
    (hpre : ∀ e ∈ pre, e.2.writeOk = true ∧ e.2.flushOk = true)
    (hpost : ∀ e ∈ post, e.2.writeOk = true ∧ e.2.flushOk = true)
    (hfail : s.writeOk = false ∨ s.flushOk = false)
    (hk : k ∉ (pre ++ post).map Prod.fst) :
    (st.process_payload payload).streams =
      pre.map (fun e => (e.1, deliver payload e.2)) ++
        post.map (fun e => (e.1, deliver payload e.2)) := by
  rw [List.map_append, List.mem_append] at hk
  push_neg at hk
  obtain ⟨hkpre, hkpost⟩ := hk
  have hpreM : pre.map (broadcast_step payload) =
      pre.map (fun e => ((e.1, deliver payload e.2), (none : Option Nat))) :=
    List.map_congr_left fun e he => broadcast_step_ok payload e (hpre e he).1 (hpre e he).2
  have hpostM : post.map (broadcast_step payload) =
      post.map (fun e => ((e.1, deliver payload e.2), (none : Option Nat))) :=
    List.map_congr_left fun e he => broadcast_step_ok payload e (hpost e he).1 (hpost e he).2
  have h2 : (broadcast_step payload (k, s)).2 = some k :=
    broadcast_step_fail payload (k, s) hfail
  have h1 : (broadcast_step payload (k, s)).1.1 = k :=
    broadcast_step_fst_key payload (k, s)
  simp only [State.process_payload, hsplit, List.map_append, List.map_cons, hpreM, hpostM]
  rw [List.filterMap_append, List.filterMap_cons, filterMap_snd_pass_ok,
    filterMap_snd_pass_ok, h2]
  simp only [List.nil_append, List.foldl_cons, List.foldl_nil, List.map_map]
  rw [removeKey_append, removeKey_cons_of_eq _ _ _ h1,
    removeKey_of_not_mem _ _ (by simpa [List.map_map, Function.comp] using hkpre),
    removeKey_of_not_mem _ _ (by simpa [List.map_map, Function.comp] using hkpost)]
  simp [Function.comp_def]

/-- Witness for C2: three registered sinks, the middle one failing its
write; broadcasting removes exactly that one and delivers once to the
other two. -/
theorem C2_broadcast_collect_then_prune_witness :
    ((State.mk FilterType.Red 3
        [(1, TcpStream.mk true true []), (2, TcpStream.mk false true []),
          (3, TcpStream.mk true true [])]).process_payload "frame").streams =
      [(1, TcpStream.mk true true [])].map (fun e => (e.1, deliver "frame" e.2)) ++
        [(3, TcpStream.mk true true [])].map (fun e => (e.1, deliver "frame" e.2)) :=
  C2_broadcast_collect_then_prune
    (State.mk FilterType.Red 3
      [(1, TcpStream.mk true true []), (2, TcpStream.mk false true []),
        (3, TcpStream.mk true true [])]) "frame"
    [(1, TcpStream.mk true true [])] [(3, TcpStream.mk true true [])] 2
    (TcpStream.mk false true []) rfl (by decide) (by decide) (Or.inl rfl) (by decide)

/-- An external event against the shared registry: the accept path
registers a new sink, the capture path broadcasts a payload and prunes. -/
inductive Op where
  | register (stream : TcpStream)
  | broadcast (payload : String)

/-- One step against the registry: `register` runs `State::insert_stream`
and reports the identifier it assigned (the incremented counter);
`broadcast` runs `State::process_payload` and assigns nothing. -/
def step (st : State) : Op → State × Option Nat
  | Op.register s => (st.insert_stream s, some (st.con_count + 1))
  | Op.broadcast p => (st.process_payload p, none)

/-- Identifiers assigned while running a sequence of operations. -/
def assignedIds (st : State) : List Op → List Nat
  | [] => []
  | op :: ops => (step st op).2.toList ++ assignedIds (step st op).1 ops

/-- Number of register operations in a sequence. -/
def numRegisters : List Op → Nat
  | [] => 0
  | Op.register _ :: ops => numRegisters ops + 1
  | Op.broadcast _ :: ops => numRegisters ops

/-- Broadcast-prune never touches the connection counter. -/
theorem con_count_process_payload (st : State) (p : String) :
    (st.process_payload p).con_count = st.con_count := rfl

/-- The identifiers assigned over any operation sequence are the
consecutive naturals following the starting counter. -/
theorem assignedIds_eq_range' :
    ∀ (ops : List Op) (st : State),
      assignedIds st ops = List.range' (st.con_count + 1) (numRegisters ops)
  | [], st => rfl
  | Op.register s :: ops, st => by
    simp only [assignedIds, step, numRegisters, Option.toList]
    rw [assignedIds_eq_range' ops]
    simp [State.insert_stream, List.range'_succ]
  | Op.broadcast p :: ops, st => by
    simp only [assignedIds, step, numRegisters, Option.toList]
    rw [assignedIds_eq_range' ops]
    simp [con_count_process_payload]

/-- C6: over every sequence of register and broadcast-prune operations
from the initial state, the identifiers assigned by register are strictly
increasing and never reused — removals during broadcast never cause a
later register to reissue a previously assigned identifier. -/
theorem C6_ids_strictly_increasing_never_reused (ops : List Op) :
    List.Pairwise (· < ·) (assignedIds State.initial ops) ∧
      (assignedIds State.initial ops).Nodup := by
  rw [assignedIds_eq_range']
  exact ⟨List.pairwise_lt_range' _ _,
    (List.pairwise_lt_range' _ _).imp Nat.ne_of_lt⟩

/-- Model of Rust `Debug` formatting of `Vec<u8>` (the `{:?}` in
`build_tcp_payload`): the elements printed as a literal array, separated
by comma and space inside square brackets. -/
def vec_debug (l : List Nat) : String :=
  "[" ++ String.intercalate ", " (l.map toString) ++ "]"

/-- Embedding of `build_tcp_payload`: the brace pushes and the formatted
field pushes of the source, in order. -/
def build_tcp_payload (w h : Nat) (frame_buffer : List Nat) : String :=
  let json := ""
  let json := json.push (Char.ofNat 123)
  let json := json ++ ("\"width\": " ++ toString w ++ ",")
  let json := json ++ ("\"height\": " ++ toString h ++ ",")
  let json := json ++ "\"encoding-order\": \"RGBA\","
  let json := json ++ ("\"image\": " ++ vec_debug frame_buffer)
  let json := json.push (Char.ofNat 125)
  json

/-- Spec-side reading of the wire payload format: a JSON object with
exactly the keys width, height, encoding-order and image, in this order,
where encoding-order is the fixed string RGBA and image is the encoded
byte sequence printed as a literal array of unsigned byte values. -/
def spec_payload (w h : Nat) (image : List Nat) : String :=
  "\x7b\"width\": " ++ toString w ++ ",\"height\": " ++ toString h ++
    ",\"encoding-order\": \"RGBA\",\"image\": " ++ vec_debug image ++ "\x7d"

/-- C7: for every width, height and encoded byte sequence, the serialized
payload is exactly the spec's JSON object: the keys width, height,
encoding-order and image in that order, encoding-order fixed to RGBA, and
image the encoded bytes printed as a literal array. -/
theorem C7_payload_format (w h : Nat) (frame_buffer : List Nat) :
    build_tcp_payload w h frame_buffer = spec_payload w h frame_buffer := by
  apply String.ext
  simp [build_tcp_payload, spec_payload, List.append_assoc]

/-- Outcome of `TcpListener::bind("127.0.0.1:8080")` at startup. -/
inductive BindResult where
  | ok
  | err

/-- Model of the thread spawned by `start_tcp_listener`: on a failed bind
the `unwrap` panics, and a panic unwinds only the thread it occurs on
(Rust default panic semantics); on success the thread loops accepting
connections. -/
inductive ThreadOutcome where
  | accepting
  | panicked

/-- The spawned listener thread's fate as a function of the bind result. -/
def listener_thread (b : BindResult) : ThreadOutcome :=
  match b with
  | BindResult.ok => ThreadOutcome.accepting
  | BindResult.err => ThreadOutcome.panicked

/-- Embedding of the processing loop of `start_camera`: for each frame
yielded by the device, decode, filter against the background, encode,
serialize and broadcast; end-of-stream returns normally, and `none`
models a filtering panic. The mutex acquisition is elided: the model runs
the capture activity's critical sections back to back. -/
def camera_loop (w h : Nat) (bg : List Color) (st : State) :
    List (List Nat) → Option State
  | [] => some st
  | raw :: rest =>
    match apply_to st.filter bg (to_colors raw) with
    | none => none
    | some modified =>
      camera_loop w h bg
        (st.process_payload (build_tcp_payload w h (to_buffer modified))) rest

/-- Embedding of `start_camera`: the first frame (if any) becomes the
background, the remaining frames run through the loop; with no initial
frame the function returns at once. -/
def start_camera (w h : Nat) (st : State) : List (List Nat) → Option State
  | [] => some st
  | bgRaw :: rest => camera_loop w h (to_colors bgRaw) st rest

/-- Embedding of `main`'s structure: the listener thread is spawned and
its `JoinHandle` discarded (`let _ = start_tcp_listener(..)`), after
which the main thread runs the camera loop; the process ends when and how
the main thread does. -/
def rust_main (b : BindResult) (w h : Nat) (frames : List (List Nat)) :
    Option State :=
  let _handle := listener_thread b
  start_camera w h State.initial frames

/-- C9 exhibits the divergence from the claim: the process behaves
identically whether the bind succeeds or fails, because the bind-failure
panic is confined to the spawned listener thread whose handle `main`
discards; the main thread still runs the full camera loop, so a bind
failure does not terminate the process. -/
theorem C9_bind_failure_does_not_stop_process (w h : Nat)
    (frames : List (List Nat)) :
    rust_main BindResult.err w h frames = rust_main BindResult.ok w h frames ∧
      rust_main BindResult.err w h frames = start_camera w h State.initial frames :=
  ⟨rfl, rfl⟩
